import Mathlib

/-!
Verification development for the `sequential-manual-processor` repository.

The definitions below are shallow embeddings of the Python source:

* `src/browser_pool.py` — `BrowserPool` (handle table, pruning, acquire,
  release), modelled as explicit state passing over `PoolState`.
  Timestamps become `Nat` seconds; browser ids become `Nat`; the
  Playwright objects themselves are irrelevant to the claims and are
  dropped from the handle record.
* `src/server.py` — `AsyncScraper.get_models_with_pool` (acquire / op /
  finally-release) and `AsyncScraper.run_async` (the request serializer,
  modelled as a transition system over a global `threading.Lock`), plus
  the empty-model branch of `get_models`.
* `src/fetch_manuals_curl.py` — manual-type classification, the
  `/modelManual/` regex extraction with its first-seen dedup loop, and
  the PORT-based direct/rendered strategy switch.
* `src/fetch_manuals_sync.py` — the alternative classification table.
* `src/fetch_models_curl.py` — the model extraction dedup/filter loop.
* `src/server_cached.py` — the manuals endpoint's empty-result handling.
-/

namespace SMP

/-! ### Browser pool data model (`src/browser_pool.py`)

A pool entry `self.browsers[browser_id] = {'browser': ..., 'context': ...,
'page': ..., 'last_used': ..., 'in_use': ...}` is modelled as an entry of
an association list (Python dicts preserve insertion order).  The
`browser.is_connected()` liveness check is modelled by the `connected`
field; a check that throws is treated by the source as disconnected, so
`connected = false` covers both. -/

structure Handle where
  connected : Bool
  lastUsed : Nat
  inUse : Bool
deriving Repr, DecidableEq

structure PoolState where
  maxBrowsers : Nat
  browsers : List (Nat × Handle)
deriving Repr, DecidableEq

/-- `BrowserPool.__init__`: empty handle table. -/
def PoolState.init (maxBrowsers : Nat) : PoolState :=
  { maxBrowsers := maxBrowsers, browsers := [] }

/-- The keep-condition of the pruning pass in `get_browser`
(browser_pool.py lines 34-48): an entry survives iff its browser is
connected and `time.time() - last_used > 30` is false.  Disconnected
handles (or those whose liveness check throws) are collected in
`closed_ids` and deleted; connected handles idle past 30s are closed and
deleted.  Note the condition reads only `last_used`, never `in_use`. -/
def pruneKeep (now : Nat) (h : Handle) : Bool :=
  h.connected && !(30 < now - h.lastUsed)

/-- The pruning pass of `get_browser` (browser_pool.py lines 33-48). -/
def prune (now : Nat) (st : PoolState) : PoolState :=
  { st with browsers := st.browsers.filter (fun p => pruneKeep now p.2) }

/-- The reuse scan of `get_browser` (browser_pool.py lines 90-104):
first entry with `not browser_data.get('in_use', False)`. -/
def findIdle : List (Nat × Handle) → Option Nat
  | [] => none
  | (id, h) :: rest => if !h.inUse then some id else findIdle rest

/-- Result of one pass through the body of `get_browser` while holding
the pool lock. -/
inductive AcquireResult
  | created (id : Nat)
  | reused (id : Nat)
  | wait
deriving Repr, DecidableEq

/-- One pass through the locked body of `BrowserPool.get_browser`
(browser_pool.py lines 29-107): prune, then create if under the limit,
else reuse the first idle handle (marking it in-use with a fresh
`last_used`), else fall through to the wait-and-retry path.  `newId`
stands for the fresh `uuid4` prefix generated at line 52. -/
def acquireStep (now newId : Nat) (st : PoolState) : AcquireResult × PoolState :=
  let st1 := prune now st
  if st1.browsers.length < st1.maxBrowsers then
    (.created newId,
      { st1 with browsers := st1.browsers ++ [(newId, ⟨true, now, true⟩)] })
  else
    match findIdle st1.browsers with
    | some id =>
        (.reused id,
          { st1 with browsers := st1.browsers.map (fun p =>
              if p.1 = id then (p.1, { p.2 with inUse := true, lastUsed := now }) else p) })
    | none => (.wait, st1)

/-- Lookup in the handle table (`browser_id in self.browsers` /
`self.browsers[browser_id]`). -/
def lookupId : List (Nat × Handle) → Nat → Option Handle
  | [], _ => none
  | p :: t, id => if id = p.1 then some p.2 else lookupId t id

/-- `BrowserPool.release_browser` (browser_pool.py lines 111-125): only
if `browser_id in self.browsers` is the handle marked idle with an
updated `last_used`; otherwise the call is a no-op.  (The `page.close()`
is best-effort and does not touch the table.) -/
def releaseBrowser (id now : Nat) (st : PoolState) : PoolState :=
  if (lookupId st.browsers id).isSome then
    { st with browsers := st.browsers.map (fun p =>
        if p.1 = id then (p.1, { p.2 with inUse := false, lastUsed := now }) else p) }
  else st

/-- Outcome of a full `get_browser()` call, lock included. -/
inductive GetOutcome
  | created (id : Nat)
  | reused (id : Nat)
  | stuck
deriving Repr, DecidableEq

/-- Full `BrowserPool.get_browser` (browser_pool.py lines 27-109).  The
whole body runs inside `async with self.lock:`; `lockHeld` records
whether the calling task already holds that (non-reentrant)
`asyncio.Lock`.  Awaiting a lock the task itself holds never resumes,
which is the `stuck` outcome.  In the wait branch the source sleeps and
recurses at line 109 *before* leaving the `async with` block, so the
recursive call runs with the lock still held by the caller.  `fuel`
bounds the recursion depth for well-foundedness; the timestamp advances
by the 1-second sleep between retries. -/
def getBrowser : Nat → Bool → Nat → Nat → PoolState → GetOutcome × PoolState
  | _, true, _, _, st => (.stuck, st)
  | fuel, false, now, newId, st =>
    match acquireStep now newId st with
    | (.created id, st') => (.created id, st')
    | (.reused id, st') => (.reused id, st')
    | (.wait, st') =>
      match fuel with
      | 0 => (.stuck, st')
      | fuel + 1 => getBrowser fuel true (now + 1) newId st'

/-- `BrowserPool.cleanup` (browser_pool.py lines 127-142): closes
everything and clears the table. -/
def cleanupPool (st : PoolState) : PoolState :=
  { st with browsers := [] }

/-- Pool transitions visible to callers: one locked acquire pass, a
release, or teardown.  (`getBrowser`'s wait-and-retry loop is a sequence
of `acquire` passes; each pass's state effect is `(acquireStep ...).2`.) -/
inductive PoolStep : PoolState → PoolState → Prop
  | acquire (now newId : Nat) (st : PoolState) : PoolStep st (acquireStep now newId st).2
  | release (id now : Nat) (st : PoolState) : PoolStep st (releaseBrowser id now st)
  | cleanup (st : PoolState) : PoolStep st (cleanupPool st)

/-- States reachable from a freshly constructed `BrowserPool(max)`. -/
inductive PoolReachable (max : Nat) : PoolState → Prop
  | init : PoolReachable max (PoolState.init max)
  | step {st st' : PoolState} : PoolReachable max st → PoolStep st st' →
      PoolReachable max st'

/-! ### Caller-side pool usage (`src/server.py`, `AsyncScraper.get_models_with_pool`)

Lines 83-162: `browser_id = None`; the `try` block acquires a handle and
runs the browser operation; `except Exception` swallows the failure and
returns `[]`; the `finally` block releases the handle whenever
`browser_id` was set.  The browser operation itself (navigation plus DOM
extraction) is external I/O, so its outcome is a parameter. -/

inductive OpResult (α : Type)
  | ok (a : α)
  | threw
deriving Repr, DecidableEq

/-- `AsyncScraper.get_models_with_pool` (server.py lines 83-162).
`now` is the acquire time, `nowRel` the release time, `opResult` the
outcome of the page navigation/extraction body.  A `stuck` acquire never
returns, so the call yields no result and the `finally` block never
runs (`browser_id` is still `None`). -/
def getModelsWithPool (fuel now nowRel newId : Nat) (opResult : OpResult (List Nat))
    (st : PoolState) : Option (List Nat) × PoolState :=
  match getBrowser fuel false now newId st with
  | (.created id, st1) =>
      (some (match opResult with | .ok ms => ms | .threw => []),
       releaseBrowser id nowRel st1)
  | (.reused id, st1) =>
      (some (match opResult with | .ok ms => ms | .threw => []),
       releaseBrowser id nowRel st1)
  | (.stuck, st1) => (none, st1)

/-! ### Request serializer (`src/server.py`, `AsyncScraper.run_async`)

Lines 164-208: the whole execution of the wrapped coroutine happens
inside `with self.lock:` (a `threading.Lock` on the singleton
`AsyncScraper`).  We model `n` caller threads; each thread acquires the
global lock, runs its browser operation to completion, and releases the
lock in the `finally` path.  The deliberate `time.sleep` delays do not
affect which thread holds the lock, so they are not part of the state. -/

inductive RunPhase
  | notStarted
  | inOp
  | finished
deriving Repr, DecidableEq

structure SerializerState (n : Nat) where
  owner : Option (Fin n)
  phase : Fin n → RunPhase

/-- Transitions of the serializer: `enter t` is thread `t` passing
`with self.lock:` and beginning `loop.run_until_complete(coro)` (it
requires the lock to be free); `exit t` is the operation finishing and
the lock being released by the `with` block's guaranteed cleanup. -/
inductive SerStep (n : Nat) : SerializerState n → SerializerState n → Prop
  | enter (t : Fin n) (s : SerializerState n) :
      s.owner = none → s.phase t = .notStarted →
      SerStep n s { owner := some t,
                    phase := fun u => if u = t then .inOp else s.phase u }
  | exit (t : Fin n) (s : SerializerState n) :
      s.owner = some t → s.phase t = .inOp →
      SerStep n s { owner := none,
                    phase := fun u => if u = t then .finished else s.phase u }

/-- Initial serializer state: lock free, no caller has started. -/
def SerializerState.start (n : Nat) : SerializerState n :=
  { owner := none, phase := fun _ => .notStarted }

inductive SerReachable (n : Nat) : SerializerState n → Prop
  | init : SerReachable n (SerializerState.start n)
  | step {s s' : SerializerState n} : SerReachable n s → SerStep n s s' →
      SerReachable n s'

/-- The instrumentation counter of the spec's property P1: number of
threads currently executing the wrapped browser operation. -/
def opCounter {n : Nat} (s : SerializerState n) : Nat :=
  (Finset.univ.filter (fun t => s.phase t = RunPhase.inOp)).card

/-! ### Manual type classification (`src/fetch_manuals_curl.py`,
`src/fetch_manuals_sync.py`)

Python's `sub in s` substring test, over the character lists of the
strings. -/

def charsContain (hay needle : List Char) : Bool :=
  needle.isPrefixOf hay ||
    match hay with
    | [] => false
    | _ :: t => charsContain t needle

def strContains (s sub : String) : Bool :=
  charsContain s.data sub.data

/-- The `if/elif` classification chain of `fetch_manuals_via_curl`
(fetch_manuals_curl.py lines 107-130), applied to the captured filename
part of a manual link: returns `(manual_type, title)`. -/
def classifyManualCurl (m : String) : String × String :=
  if strContains m "_spm." then ("spm", "Service & Parts Manual")
  else if strContains m "_iom." then ("iom", "Installation & Operation Manual")
  else if strContains m "_pm." then ("pm", "Parts Manual")
  else if strContains m "_wd." then ("wd", "Wiring Diagrams")
  else if strContains m "_sm." then ("sm", "Service Manual")
  else if strContains m "_qrg." then ("qrg", "Quick Reference Guide")
  else if strContains m "_ts." then ("ts", "Tech Sheet")
  else ("manual", "Manual")

/-- The `if/elif` classification chain of `fetch_manuals_simple`
(fetch_manuals_sync.py lines 39-56), applied to an anchor's `href` with
its display `text`: returns `(manual_type, title)`. -/
def classifyManualSync (href text : String) : String × String :=
  if strContains href "_spm." then ("spm", "Service & Parts Manual")
  else if strContains href "_iom." then ("iom", "Installation & Operation Manual")
  else if strContains href "_pm." then ("pm", "Parts Manual")
  else if strContains href "_wd." then ("wd", "Wiring Diagrams")
  else if strContains href "_sm." then ("sm", "Service Manual")
  else ("unknown", if text ≠ "" then text else "Manual")

/-! ### Manual extraction (`src/fetch_manuals_curl.py` lines 91-137)

`re.findall(r'/modelManual/([^"\']+\.pdf[^"\']*)', html)` followed by
the `seen`-set dedup loop building the record list. -/

structure ManualRec where
  type : String
  title : String
  link : String
  text : String
deriving Repr, DecidableEq

/-- Record built for one captured match (fetch_manuals_curl.py lines
104-137): full path `/modelManual/<match>`, type/title from the
classification chain, `text` set to the title. -/
def mkManualCurl (m : String) : ManualRec :=
  { type := (classifyManualCurl m).1
    title := (classifyManualCurl m).2
    link := "/modelManual/" ++ m
    text := (classifyManualCurl m).2 }

def isQuoteChar (c : Char) : Bool :=
  c = '"' || c = '\''

/-- Whether the character run after `/modelManual/` can be matched by
`[^"\']+\.pdf[^"\']*`: it must contain the literal `.pdf` starting at
index ≥ 1 (at least one character is consumed by `[^"\']+`).  The
greedy quantifiers then extend the match to the whole run. -/
def runMatchesPdf (run : List Char) : Bool :=
  charsContain (run.drop 1) ".pdf".data

/-- Model of `re.findall(r'/modelManual/([^"\']+\.pdf[^"\']*)', s)`:
scan left to right; at a position where the literal prefix
`/modelManual/` matches, the candidate capture is the maximal run of
non-quote characters after it; if that run contains `.pdf` past its
first character the (greedy) match succeeds, the run is captured, and
scanning resumes after it; otherwise the scan advances one character.
`fuel` only bounds the recursion (every step consumes at least one
character, so `l.length` fuel is enough). -/
def findManualMatchesAux : Nat → List Char → List String
  | 0, _ => []
  | _, [] => []
  | fuel + 1, c :: rest =>
    if "/modelManual/".data.isPrefixOf (c :: rest) then
      let body := (c :: rest).drop 13
      let run := body.takeWhile (fun ch => !isQuoteChar ch)
      if runMatchesPdf run then
        String.mk run :: findManualMatchesAux fuel (body.drop run.length)
      else
        findManualMatchesAux fuel rest
    else
      findManualMatchesAux fuel rest

def findManualMatches (l : List Char) : List String :=
  findManualMatchesAux l.length l

/-- The dedup loop of `fetch_manuals_via_curl` (fetch_manuals_curl.py
lines 96-137): iterate over the matches, skipping those already in
`seen`, otherwise recording the match and appending its record. -/
def buildManualsCurl : List String → List String → List ManualRec
  | [], _ => []
  | m :: rest, seen =>
    if m ∈ seen then buildManualsCurl rest seen
    else mkManualCurl m :: buildManualsCurl rest (m :: seen)

/-- The extraction portion of `fetch_manuals_via_curl` on a successful
curl response body: find all manual-link matches, then dedup into
records.  `seen` and `manuals` are local variables of the Python
function, re-initialised on every call. -/
def extractManualsCurl (html : String) : List ManualRec :=
  buildManualsCurl (findManualMatches html.data) []

/-! ### Fetch strategy selection (`src/fetch_manuals_curl.py` lines 14-175)

`fetch_manuals_via_curl` first reads `PORT` (default `'8888'`); when it
differs from `'8888'` it immediately delegates to the Playwright
(rendered) fallback.  Otherwise it runs curl: on exit code 0 with
non-empty stdout it extracts and returns (even zero records); on any
failure (non-zero exit, empty stdout, timeout, exception) it returns
`[]`.  The curl subprocess and the rendered fetch are external I/O, so
their outcomes are parameters. -/

inductive CurlRun
  | completed (returncode : Int) (stdout : String)
  | timedOut
  | raised
deriving Repr, DecidableEq

inductive FetchPath
  | direct
  | rendered
deriving Repr, DecidableEq

/-- `fetch_manuals_via_curl` (fetch_manuals_curl.py lines 14-175),
returning which path served the request together with the records.
`port` is `os.environ.get('PORT', '8888')`; `renderedResult` is what
`fetch_manuals_via_playwright` would return. -/
def fetchManualsViaCurl (port : String) (curl : CurlRun)
    (renderedResult : List ManualRec) : FetchPath × List ManualRec :=
  if port ≠ "8888" then (.rendered, renderedResult)
  else
    match curl with
    | .completed rc out =>
        if rc = 0 ∧ out ≠ "" then (.direct, extractManualsCurl out)
        else (.direct, [])
    | .timedOut => (.direct, [])
    | .raised => (.direct, [])

/-! ### Model extraction (`src/fetch_models_curl.py` lines 80-116)

The dedup/filter loop over the `(code, name)` pairs produced by the
three regex patterns (the regex engine/network being external, the
per-pattern match lists are parameters). -/

structure ModelRec where
  code : String
  name : String
  url : String
deriving Repr, DecidableEq

/-- Navigation-chrome names skipped at fetch_models_curl.py line 99. -/
def chromeNames : List String :=
  ["Parts", "Manuals", "Home", "Back", ""]

/-- The skip-condition of fetch_models_curl.py lines 98-101, on the
already-stripped code/name. -/
def skipModelMatch (seen : List String) (code name : String) : Bool :=
  code ∈ seen || name ∈ chromeNames || strContains code.toLower "javascript"

def mkModelRec (uri code name : String) : ModelRec :=
  { code := code, name := name, url := "/" ++ uri ++ "/" ++ code ++ "/parts" }

/-- The inner `for match in matches` loop (fetch_models_curl.py lines
87-113): strip, skip duplicates/chrome/javascript links, append, and
break once `max_models` records have been collected (the length check
runs only after an append). -/
def addModelMatches (uri : String) (maxM : Nat) :
    List (String × String) → List String → List ModelRec →
    List String × List ModelRec
  | [], seen, models => (seen, models)
  | p :: rest, seen, models =>
    let code := p.1.trim
    let name := p.2.trim
    if skipModelMatch seen code name then
      addModelMatches uri maxM rest seen models
    else
      let models' := models ++ [mkModelRec uri code name]
      if maxM ≤ models'.length then (code :: seen, models')
      else addModelMatches uri maxM rest (code :: seen) models'

/-- The outer `for pattern in patterns` loop (fetch_models_curl.py lines
84-116): feed each pattern's matches through the inner loop, stopping
once `max_models` records are collected.  `seen_codes` and `models` are
local to the Python function. -/
def buildModelsCurl (uri : String) (maxM : Nat) :
    List (List (String × String)) → List String → List ModelRec → List ModelRec
  | [], _, models => models
  | pat :: pats, seen, models =>
    let r := addModelMatches uri maxM pat seen models
    if maxM ≤ r.2.length then r.2
    else buildModelsCurl uri maxM pats r.1 r.2

/-- The extraction portion of `fetch_models_via_curl` over the pattern
match lists of one HTML document. -/
def extractModelsCurl (uri : String) (maxM : Nat)
    (patternMatches : List (List (String × String))) : List ModelRec :=
  buildModelsCurl uri maxM patternMatches [] []

/-! ### API-layer empty-result handling (`src/server_cached.py`,
`src/server.py`) -/

/-- An HTTP JSON response: status code, whether the body carries
`success: True`, and the data list (for success bodies). -/
structure ApiResponse where
  status : Nat
  success : Bool
  data : List (String × String × String × String)
deriving Repr, DecidableEq

/-- Formatting of one fetched manual record by `get_manuals` in
server_cached.py lines 199-206: `(type, title, url, full_url)`. -/
def formatCachedManual (m : ManualRec) : String × String × String × String :=
  (m.type, m.title, m.link,
   if m.link ≠ "" then "https://www.partstown.com" ++ m.link else "")

/-- The fetch-and-respond tail of `get_manuals` in server_cached.py
lines 185-214 (reached when the cache holds no manuals for the model):
a non-empty fetch result is formatted into a 200 success response; an
empty result gives `{'success': True, 'data': []}` with status 200; an
exception from the fetch is caught and also gives the 200
success-with-empty-list response.  `fetched = none` models the
exception case. -/
def getManualsCachedResponse (fetched : Option (List ManualRec)) : ApiResponse :=
  match fetched with
  | some manuals =>
      if manuals ≠ [] then
        { status := 200, success := true, data := manuals.map formatCachedManual }
      else
        { status := 200, success := true, data := [] }
  | none => { status := 200, success := true, data := [] }

/-- The post-fetch empty check of `get_models` in server.py lines
474-475: `if not models: return jsonify({"error": "Failed to fetch
models"}), 500`; otherwise processing continues with the fetched
list. -/
def getModelsEmptyCheck (models : List ModelRec) : Except (Nat × String) (List ModelRec) :=
  if models.isEmpty then .error (500, "Failed to fetch models")
  else .ok models

/-! ### Helper lemmas -/

theorem lookupId_isSome_of_mem {l : List (Nat × Handle)} {id : Nat} {h : Handle}
    (hm : (id, h) ∈ l) : (lookupId l id).isSome := by
  induction l with
  | nil => cases hm
  | cons p t ih =>
    rcases List.mem_cons.mp hm with hm | hm
    · simp [lookupId, ← hm]
    · by_cases he : id = p.1
      · simp [lookupId, he]
      · simpa [lookupId, he] using ih hm

theorem mem_of_findIdle_some {l : List (Nat × Handle)} {id : Nat}
    (hf : findIdle l = some id) : ∃ h, (id, h) ∈ l := by
  induction l with
  | nil => simp [findIdle] at hf
  | cons p t ih =>
    obtain ⟨k, h⟩ := p
    by_cases hu : h.inUse
    · simp [findIdle, hu] at hf
      obtain ⟨h', hh⟩ := ih hf
      exact ⟨h', List.mem_cons_of_mem _ hh⟩
    · simp [findIdle, hu] at hf
      exact ⟨h, by simp [hf]⟩

/-- Lookup after the release-update map: the first entry with the given
key gets `in_use := False` and a fresh `last_used`. -/
theorem lookupId_map_release {l : List (Nat × Handle)} {id : Nat} {h : Handle} (now : Nat)
    (hl : lookupId l id = some h) :
    lookupId (l.map (fun p => if p.1 = id then (p.1, { p.2 with inUse := false, lastUsed := now })
      else p)) id = some { h with inUse := false, lastUsed := now } := by
  induction l with
  | nil => simp [lookupId] at hl
  | cons p t ih =>
    by_cases he : id = p.1
    · rw [lookupId, if_pos he] at hl
      obtain rfl : p.2 = h := Option.some.inj hl
      rw [List.map_cons]
      split
      next hc => rw [lookupId, if_pos (by simpa using he)]
      next hc => exact absurd (he ▸ rfl) hc
    · rw [lookupId, if_neg he] at hl
      rw [List.map_cons]
      split
      next hc => exact absurd (show id = p.1 from hc.symm) he
      next => rw [lookupId, if_neg he]; exact ih hl

/-- Mapping a key-preserving update over the table does not change which
ids are present. -/
theorem lookupId_map_isSome (f : Nat × Handle → Nat × Handle)
    (hf : ∀ p, (f p).1 = p.1) (l : List (Nat × Handle)) (id : Nat) :
    (lookupId (l.map f) id).isSome = (lookupId l id).isSome := by
  induction l with
  | nil => rfl
  | cons p t ih =>
    rw [List.map_cons, lookupId, lookupId, hf p]
    by_cases he : id = p.1
    · simp [he]
    · simp [he, ih]

theorem lookupId_append_isSome {l1 : List (Nat × Handle)} {id : Nat}
    (h : (lookupId l1 id).isSome) (l2 : List (Nat × Handle)) :
    (lookupId (l1 ++ l2) id).isSome := by
  induction l1 with
  | nil => simp [lookupId] at h
  | cons p t ih =>
    rw [List.cons_append, lookupId]
    by_cases he : id = p.1
    · simp [he]
    · rw [lookupId, if_neg he] at h
      simpa [he] using ih h

/-- An all-busy table has no idle handle for the reuse scan. -/
theorem findIdle_eq_none_of_all_inUse {l : List (Nat × Handle)}
    (h : ∀ p ∈ l, p.2.inUse = true) : findIdle l = none := by
  induction l with
  | nil => rfl
  | cons p t ih =>
    obtain ⟨k, v⟩ := p
    have hv : v.inUse = true := h (k, v) (List.mem_cons_self _ _)
    rw [findIdle, hv]
    exact ih fun q hq => h q (List.mem_cons_of_mem _ hq)

theorem prune_maxBrowsers (now : Nat) (st : PoolState) :
    (prune now st).maxBrowsers = st.maxBrowsers := rfl

theorem prune_length_le (now : Nat) (st : PoolState) :
    (prune now st).browsers.length ≤ st.browsers.length :=
  List.length_filter_le _ _

/-- One locked acquire pass preserves the capacity bound and the
configured maximum. -/
theorem acquireStep_preserves_inv {st : PoolState} (now newId : Nat)
    (h : st.browsers.length ≤ st.maxBrowsers) :
    (acquireStep now newId st).2.maxBrowsers = st.maxBrowsers ∧
    (acquireStep now newId st).2.browsers.length ≤ st.maxBrowsers := by
  have hp : (prune now st).browsers.length ≤ st.browsers.length := prune_length_le now st
  simp only [acquireStep]
  split
  next hlt =>
    refine ⟨rfl, ?_⟩
    simp only [List.length_append, List.length_cons, List.length_nil]
    have : (prune now st).browsers.length < st.maxBrowsers := by
      simpa [prune_maxBrowsers] using hlt
    omega
  next hge =>
    split
    next hidle => exact ⟨rfl, by simpa using le_trans hp h⟩
    next hnone => exact ⟨rfl, le_trans hp h⟩

theorem releaseBrowser_preserves (id now : Nat) (st : PoolState) :
    (releaseBrowser id now st).maxBrowsers = st.maxBrowsers ∧
    (releaseBrowser id now st).browsers.length = st.browsers.length := by
  unfold releaseBrowser
  split <;> simp

/-- One pool transition preserves the capacity invariant. -/
theorem poolStep_preserves {m : Nat} {st st' : PoolState} (hstep : PoolStep st st')
    (hm : st.maxBrowsers = m) (hl : st.browsers.length ≤ m) :
    st'.maxBrowsers = m ∧ st'.browsers.length ≤ m := by
  cases hstep with
  | acquire now newId =>
    obtain ⟨h1, h2⟩ := @acquireStep_preserves_inv st now newId (hm ▸ hl)
    exact ⟨h1.trans hm, hm ▸ h2⟩
  | release id now =>
    obtain ⟨h1, h2⟩ := releaseBrowser_preserves id now st
    exact ⟨h1.trans hm, h2.le.trans hl⟩
  | cleanup =>
    exact ⟨hm, by simp [cleanupPool]⟩

/-- Pool invariant: every reachable state keeps the configured maximum
and holds at most that many handles. -/
theorem pool_reachable_inv {max : Nat} {st : PoolState} (h : PoolReachable max st) :
    st.maxBrowsers = max ∧ st.browsers.length ≤ max := by
  induction h with
  | init => exact ⟨rfl, by simp [PoolState.init]⟩
  | step _ hstep ih => exact poolStep_preserves hstep ih.1 ih.2

/-! ### Claim theorems -/

/-- **C1** (code bug).  The spec demands that the wait-and-retry path of
`BrowserPool.get_browser` release the pool lock before sleeping, so that
an acquire at capacity eventually returns once a handle is released.  In
the source the recursive retry at browser_pool.py line 109 runs while
the caller still holds the non-reentrant `asyncio.Lock`, so the retry
re-awaits a lock the caller itself owns and never resumes: at a pool of
`max_browsers = 2` with both handles connected, in use and freshly used,
`get_browser` deadlocks (outcome `stuck`) no matter how many retries it
is allowed. -/
theorem getBrowser_wait_path_deadlocks : ∀ fuel : Nat,
    (getBrowser fuel false 100 2
      { maxBrowsers := 2,
        browsers := [(0, ⟨true, 100, true⟩), (1, ⟨true, 100, true⟩)] }).1 =
    GetOutcome.stuck := by
  intro fuel
  cases fuel <;> simp [getBrowser, acquireStep, prune, pruneKeep, findIdle]

/-- **C3** (counterexample).  The claim says an acquire issued when all
handles are in use "waits until a release makes a handle available".  At
a pool of `max_browsers = 1` whose single handle is connected, in use
and freshly used, the acquire's wait path gets stuck re-awaiting the
lock it holds (so no `release_browser`, which needs the same lock, can
ever run and the waiter never obtains a handle). -/
theorem pool_wait_never_obtains_handle :
    (getBrowser 10 false 50 3
      { maxBrowsers := 1, browsers := [(0, ⟨true, 50, true⟩)] }).1 =
    GetOutcome.stuck := by decide

/-- **C3** (amended).  In every reachable state of the `BrowserPool` the
handle table holds at most `max_browsers` entries, and an acquire pass
issued when the pool is at capacity with every handle in use neither
raises nor creates an extra handle: it falls through to the
wait-and-retry path with the table unchanged beyond pruning (the wait
itself, per C1, then blocks indefinitely instead of completing after a
release). -/
theorem pool_capacity_and_wait :
    (∀ (max : Nat) (st : PoolState), PoolReachable max st → st.browsers.length ≤ max) ∧
    (∀ (now newId : Nat) (st : PoolState),
      st.maxBrowsers ≤ (prune now st).browsers.length →
      (∀ p ∈ (prune now st).browsers, p.2.inUse = true) →
      acquireStep now newId st = (.wait, prune now st)) := by
  constructor
  · intro max st h
    exact (pool_reachable_inv h).2
  · intro now newId st hfull hbusy
    unfold acquireStep
    rw [if_neg (by simpa [prune_maxBrowsers] using not_lt.mpr hfull)]
    rw [findIdle_eq_none_of_all_inUse hbusy]

/-- Witness for C3's amended theorem: the empty initial pool of capacity
1 satisfies the bound, and an acquire against a full busy pool of
capacity 1 returns the wait outcome with the table unchanged. -/
theorem pool_capacity_and_wait_w :
    (PoolState.init 1).browsers.length ≤ 1 ∧
    acquireStep 5 9 { maxBrowsers := 1, browsers := [(0, ⟨true, 5, true⟩)] } =
      (.wait, prune 5 { maxBrowsers := 1, browsers := [(0, ⟨true, 5, true⟩)] }) :=
  ⟨pool_capacity_and_wait.1 1 _ PoolReachable.init,
   pool_capacity_and_wait.2 5 9 _ (by decide) (by decide)⟩

/-- **C5** (counterexample).  The claim says acquire's pruning step
never closes a handle that is currently marked in use.  But the prune
condition (browser_pool.py lines 37-41) tests only `last_used`: a
connected handle with `in_use = True` whose `last_used` lies 31 seconds
in the past is closed and dropped from the table by the next acquire. -/
theorem prune_closes_in_use_handle :
    (0, (⟨true, 0, true⟩ : Handle)) ∈
      ({ maxBrowsers := 2, browsers := [(0, ⟨true, 0, true⟩)] } : PoolState).browsers ∧
    (⟨true, 0, true⟩ : Handle).inUse = true ∧
    lookupId (acquireStep 31 1
      { maxBrowsers := 2, browsers := [(0, ⟨true, 0, true⟩)] }).2.browsers 0 = none := by
  refine ⟨by decide, by decide, by decide⟩

/-- **C5** (amended).  Outside teardown, a handle that disappears from
the table during an acquire pass was either disconnected or had not been
used for more than the 30-second TTL — the `in_use` flag plays no role:
pruning keeps exactly the connected entries whose `last_used` is within
30 seconds of now, whether or not they are in use. -/
theorem acquire_prunes_only_disconnected_or_stale :
    (∀ (now newId : Nat) (st : PoolState) (id : Nat) (h : Handle),
      (id, h) ∈ st.browsers →
      lookupId (acquireStep now newId st).2.browsers id = none →
      h.connected = false ∨ 30 < now - h.lastUsed) ∧
    (∀ (now : Nat) (st : PoolState) (id : Nat) (h : Handle),
      (id, h) ∈ (prune now st).browsers ↔
        (id, h) ∈ st.browsers ∧ h.connected = true ∧ now - h.lastUsed ≤ 30) := by
  have hmem : ∀ (now : Nat) (st : PoolState) (id : Nat) (h : Handle),
      (id, h) ∈ (prune now st).browsers ↔
        (id, h) ∈ st.browsers ∧ h.connected = true ∧ now - h.lastUsed ≤ 30 := by
    intro now st id h
    simp [prune, List.mem_filter, pruneKeep, not_lt]
  refine ⟨?_, hmem⟩
  intro now newId st id h hm hnone
  by_contra hcon
  push_neg at hcon
  obtain ⟨hconn, hfresh⟩ := hcon
  have hconn' : h.connected = true := by
    cases hc : h.connected
    · exact absurd hc hconn
    · rfl
  have hpm : (id, h) ∈ (prune now st).browsers :=
    (hmem now st id h).mpr ⟨hm, hconn', hfresh⟩
  have hsome : (lookupId (prune now st).browsers id).isSome :=
    lookupId_isSome_of_mem hpm
  have : (lookupId (acquireStep now newId st).2.browsers id).isSome := by
    simp only [acquireStep]
    split
    next => exact lookupId_append_isSome hsome _
    next =>
      split
      next rid heq =>
        rw [lookupId_map_isSome
          (fun p => if p.1 = rid then (p.1, { p.2 with inUse := true, lastUsed := now }) else p)
          (fun p => by dsimp only; split <;> rfl) (prune now st).browsers id]
        exact hsome
      next => exact hsome
  rw [hnone] at this
  simp at this

/-- Witness for C5's amended theorem: a disconnected in-use handle that
vanishes during an acquire pass is indeed reported as disconnected or
stale. -/
theorem acquire_prunes_only_disconnected_or_stale_w :
    (Handle.connected ⟨false, 5, true⟩ = false ∨ 30 < 5 - Handle.lastUsed ⟨false, 5, true⟩) ∧
    ((0, (⟨true, 3, false⟩ : Handle)) ∈
      (prune 5 { maxBrowsers := 2, browsers := [(0, ⟨true, 3, false⟩)] }).browsers ↔
      (0, (⟨true, 3, false⟩ : Handle)) ∈
        ({ maxBrowsers := 2, browsers := [(0, ⟨true, 3, false⟩)] } : PoolState).browsers ∧
      Handle.connected ⟨true, 3, false⟩ = true ∧ 5 - Handle.lastUsed ⟨true, 3, false⟩ ≤ 30) :=
  ⟨acquire_prunes_only_disconnected_or_stale.1 5 7
      { maxBrowsers := 1, browsers := [(42, ⟨false, 5, true⟩)] } 42 ⟨false, 5, true⟩
      (by decide) (by decide),
   acquire_prunes_only_disconnected_or_stale.2 5
      { maxBrowsers := 2, browsers := [(0, ⟨true, 3, false⟩)] } 0 ⟨true, 3, false⟩⟩

/-- **C10** (confirmed).  Releasing an unknown handle id is a harmless
no-op: when the id is not in the pool's table, `release_browser` returns
normally (the embedding is a total function) and leaves the pool state —
every entry with its `in_use` and `last_used` fields — unchanged. -/
theorem releaseBrowser_unknown_noop : ∀ (id now : Nat) (st : PoolState),
    lookupId st.browsers id = none → releaseBrowser id now st = st := by
  intro id now st h
  unfold releaseBrowser
  rw [h]
  rfl

/-- Witness for C10: releasing id 5 against a table holding only id 0
leaves the state unchanged. -/
theorem releaseBrowser_unknown_noop_w :
    releaseBrowser 5 99 { maxBrowsers := 2, browsers := [(0, ⟨true, 0, false⟩)] } =
      { maxBrowsers := 2, browsers := [(0, ⟨true, 0, false⟩)] } :=
  releaseBrowser_unknown_noop 5 99 _ (by decide)

/-- A successful `get_browser` call comes from the first locked pass
(the recursive retry can only get stuck), and the returned id is present
in the resulting table. -/
theorem getBrowser_success_lookup {fuel now newId bid : Nat} {st st1 : PoolState}
    (hs : getBrowser fuel false now newId st = (.created bid, st1) ∨
          getBrowser fuel false now newId st = (.reused bid, st1)) :
    (lookupId st1.browsers bid).isSome := by
  rw [getBrowser.eq_def] at hs
  dsimp only at hs
  rcases ha : acquireStep now newId st with ⟨res, st'⟩
  rw [ha] at hs
  cases res with
  | created i =>
    dsimp only at hs
    have hi : i = bid ∧ st' = st1 := by
      rcases hs with hs | hs
      · exact ⟨by injection (congrArg Prod.fst hs), congrArg Prod.snd hs⟩
      · exact absurd (congrArg Prod.fst hs) (by simp)
    obtain ⟨rfl, rfl⟩ := hi
    simp only [acquireStep] at ha
    split at ha
    next =>
      obtain ⟨hid, hst⟩ : AcquireResult.created newId = AcquireResult.created i ∧ _ = st' :=
        ⟨congrArg Prod.fst ha, congrArg Prod.snd ha⟩
      obtain rfl : newId = i := by injection hid
      rw [← hst]
      exact lookupId_isSome_of_mem
        (List.mem_append_right _ (List.mem_singleton.mpr rfl))
    next =>
      split at ha <;> simp at ha
  | reused i =>
    dsimp only at hs
    have hi : i = bid ∧ st' = st1 := by
      rcases hs with hs | hs
      · exact absurd (congrArg Prod.fst hs) (by simp)
      · exact ⟨by injection (congrArg Prod.fst hs), congrArg Prod.snd hs⟩
    obtain ⟨rfl, rfl⟩ := hi
    simp only [acquireStep] at ha
    split at ha
    next => simp at ha
    next =>
      split at ha
      next rid heq =>
        obtain ⟨hid, hst⟩ : AcquireResult.reused rid = AcquireResult.reused i ∧ _ = st' :=
          ⟨congrArg Prod.fst ha, congrArg Prod.snd ha⟩
        obtain rfl : rid = i := by injection hid
        obtain ⟨h0, hm0⟩ := mem_of_findIdle_some heq
        rw [← hst]
        rw [lookupId_map_isSome
          (fun p => if p.1 = rid then (p.1, { p.2 with inUse := true, lastUsed := now }) else p)
          (fun p => by dsimp only; split <;> rfl) (prune now st).browsers rid]
        exact lookupId_isSome_of_mem hm0
      next => simp at ha
  | wait =>
    exfalso
    dsimp only at hs
    cases fuel with
    | zero =>
      rcases hs with hs | hs <;> exact absurd (congrArg Prod.fst hs) (by simp)
    | succ f =>
      dsimp only at hs
      rw [getBrowser.eq_def] at hs
      dsimp only at hs
      rcases hs with hs | hs <;> exact absurd (congrArg Prod.fst hs) (by simp)

/-- **C4** (confirmed).  `AsyncScraper.get_models_with_pool` releases
its handle on every path: whenever the acquire succeeded, the function
returns (it never re-raises — the `except` swallows the failure) and,
whether the browser operation succeeded or threw, the `finally` block
has run `release_browser` on the acquired id, so the handle ends idle
(`in_use = False`) with its `last_used` set to the release time. -/
theorem getModelsWithPool_always_releases :
    ∀ (fuel now nowRel newId : Nat) (opResult : OpResult (List Nat)) (st : PoolState)
      (bid : Nat) (st1 : PoolState),
      (getBrowser fuel false now newId st = (.created bid, st1) ∨
       getBrowser fuel false now newId st = (.reused bid, st1)) →
      (getModelsWithPool fuel now nowRel newId opResult st).1.isSome ∧
      ∃ h : Handle,
        lookupId (getModelsWithPool fuel now nowRel newId opResult st).2.browsers bid = some h ∧
        h.inUse = false ∧ h.lastUsed = nowRel := by
  intro fuel now nowRel newId opResult st bid st1 hs
  have hlook : (lookupId st1.browsers bid).isSome := getBrowser_success_lookup hs
  obtain ⟨h0, hh0⟩ := Option.isSome_iff_exists.mp hlook
  have hrel : lookupId (releaseBrowser bid nowRel st1).browsers bid =
      some { h0 with inUse := false, lastUsed := nowRel } := by
    unfold releaseBrowser
    rw [hh0]
    simpa using lookupId_map_release nowRel hh0
  rcases hs with hs | hs <;>
    rw [getModelsWithPool.eq_def, hs] <;>
    exact ⟨rfl, ⟨{ h0 with inUse := false, lastUsed := nowRel }, hrel, rfl, rfl⟩⟩

/-- Witness for C4: a fresh pool of capacity 1, an acquire that creates
handle 7, and an operation that throws: the call still returns and
handle 7 ends idle with `last_used = 9`. -/
theorem getModelsWithPool_always_releases_w :
    (getModelsWithPool 1 0 9 7 OpResult.threw (PoolState.init 1)).1.isSome ∧
    ∃ h : Handle,
      lookupId (getModelsWithPool 1 0 9 7 OpResult.threw (PoolState.init 1)).2.browsers 7 =
        some h ∧ h.inUse = false ∧ h.lastUsed = 9 :=
  getModelsWithPool_always_releases 1 0 9 7 OpResult.threw (PoolState.init 1) 7
    { maxBrowsers := 1, browsers := [(7, ⟨true, 0, true⟩)] } (Or.inl (by decide))

/-- In every reachable serializer state, a thread inside the wrapped
operation is the lock owner. -/
theorem ser_reachable_owner {n : Nat} {s : SerializerState n} (h : SerReachable n s) :
    ∀ t, s.phase t = RunPhase.inOp → s.owner = some t := by
  induction h with
  | init => intro t ht; simp [SerializerState.start] at ht
  | step _ hstep ih =>
    cases hstep with
    | enter t s ho hp =>
      intro u hu
      by_cases he : u = t
      · simp [he]
      · simp only [he, if_false] at hu
        exact absurd (ih u (by simpa [he] using hu)) (by simp [ho])
    | exit t s ho hp =>
      intro u hu
      by_cases he : u = t
      · simp [he] at hu
      · have := ih u (by simpa [he] using hu)
        rw [ho] at this
        exact absurd (Option.some.inj this) (fun hh => he hh.symm)

/-- **C2** (confirmed).  `AsyncScraper.run_async` executes the wrapped
browser operation entirely inside `with self.lock:` on the singleton
scraper, so in every reachable state of any number of concurrent
callers, the instrumenting counter of threads inside the operation
never exceeds 1, and no two distinct threads are inside it at once. -/
theorem runAsync_mutual_exclusion :
    ∀ (n : Nat) (s : SerializerState n), SerReachable n s →
      opCounter s ≤ 1 ∧
      ∀ t u, s.phase t = RunPhase.inOp → s.phase u = RunPhase.inOp → t = u := by
  intro n s h
  have inv := ser_reachable_owner h
  have pair : ∀ t u, s.phase t = RunPhase.inOp → s.phase u = RunPhase.inOp → t = u := by
    intro t u ht hu
    have h1 := inv t ht
    have h2 := inv u hu
    rw [h1] at h2
    exact Option.some.inj h2
  refine ⟨?_, pair⟩
  apply Finset.card_le_one.mpr
  intro a ha b hb
  rw [Finset.mem_filter] at ha hb
  exact pair a b ha.2 hb.2

/-- Witness for C2: with two caller threads, the state reached after
thread 0 enters the critical section has counter at most 1. -/
theorem runAsync_mutual_exclusion_w :
    opCounter ({ owner := some (0 : Fin 2),
                 phase := fun u => if u = 0 then RunPhase.inOp
                   else (SerializerState.start 2).phase u } : SerializerState 2) ≤ 1 :=
  (runAsync_mutual_exclusion 2 _
    (SerReachable.step SerReachable.init (SerStep.enter 0 _ rfl rfl))).1

/-- **C6** (counterexample).  The claim says a filename matching no
table entry classifies as typeTag `unknown`, and cites
`fetch_manuals_via_curl`; but that function's fallback branch
(fetch_manuals_curl.py lines 128-130) yields `manual_type = 'manual'`,
not `'unknown'`: `"XXX_unknown.pdf"` classifies as `("manual",
"Manual")`. -/
theorem classifyCurl_fallback_not_unknown :
    classifyManualCurl "XXX_unknown.pdf" = ("manual", "Manual") ∧
    ("manual" : String) ≠ "unknown" := by
  exact ⟨by decide, by decide⟩

/-- **C6** (amended).  `fetch_manuals_via_curl` classifies by first
substring match in the order `_spm.`, `_iom.`, `_pm.`, `_wd.`, `_sm.`,
`_qrg.`, `_ts.` with fallback typeTag `manual` (title `Manual`), while
`fetch_manuals_simple` uses the shorter order `_spm.`, `_iom.`, `_pm.`,
`_wd.`, `_sm.` with fallback typeTag `unknown`.  `"HEN-PF500_spm.pdf"`
classifies as `spm` with title `"Service & Parts Manual"` in both; the
non-matching `"XXX_unknown.pdf"` is `manual` in the curl variant and
`unknown` in the sync variant; a filename containing several tags takes
the first in table order; and `_qrg.`/`_ts.` files fall through to
`unknown` in the sync variant. -/
theorem manual_classification_tables :
    classifyManualCurl "HEN-PF500_spm.pdf" = ("spm", "Service & Parts Manual") ∧
    classifyManualSync "HEN-PF500_spm.pdf" "" = ("spm", "Service & Parts Manual") ∧
    classifyManualCurl "XXX_unknown.pdf" = ("manual", "Manual") ∧
    classifyManualSync "XXX_unknown.pdf" "" = ("unknown", "Manual") ∧
    classifyManualCurl "m_spm._iom._pm._wd._sm._qrg._ts.pdf" = ("spm", "Service & Parts Manual") ∧
    classifyManualCurl "m_iom._pm._wd._sm._qrg._ts.pdf" = ("iom", "Installation & Operation Manual") ∧
    classifyManualCurl "m_pm._wd._sm._qrg._ts.pdf" = ("pm", "Parts Manual") ∧
    classifyManualCurl "m_wd._sm._qrg._ts.pdf" = ("wd", "Wiring Diagrams") ∧
    classifyManualCurl "m_sm._qrg._ts.pdf" = ("sm", "Service Manual") ∧
    classifyManualCurl "m_qrg._ts.pdf" = ("qrg", "Quick Reference Guide") ∧
    classifyManualCurl "m_ts.pdf" = ("ts", "Tech Sheet") ∧
    classifyManualSync "m_qrg.pdf" "" = ("unknown", "Manual") ∧
    classifyManualSync "m_ts.pdf" "" = ("unknown", "Manual") := by
  decide

/-- **C7** (counterexample).  The claim says the rendered path is
entered iff the direct path demonstrably failed, and that the fetch
never ends with zero records without trying the rendered state.  With
`PORT = '8888'`, a successful curl whose body contains no manual link
returns zero records on the direct path without escalating (even though
the rendered fetch would have produced a record); with `PORT = '9999'`,
the rendered path is entered immediately without attempting the direct
path at all. -/
theorem fetch_escalation_by_port_counterexample :
    fetchManualsViaCurl "8888" (.completed 0 "<html>no manuals here</html>")
      [mkManualCurl "500_spm.pdf"] = (.direct, []) ∧
    fetchManualsViaCurl "9999"
      (.completed 0 "page with \"/modelManual/500_spm.pdf\" link") [] = (.rendered, []) := by
  exact ⟨by decide, by decide⟩

/-- **C7** (amended).  In `fetch_manuals_via_curl` the direct/rendered
choice is driven solely by the `PORT` environment variable: the rendered
(Playwright) path is taken iff `PORT ≠ '8888'`, in which case the direct
path is never attempted and the rendered result is returned as-is; with
`PORT = '8888'` the direct path's result — the extraction over a
successful curl body, and the empty list on any curl failure or on zero
extracted records — is returned without ever escalating. -/
theorem fetch_strategy_port_switch :
    ∀ (port : String) (curl : CurlRun) (r : List ManualRec),
      ((fetchManualsViaCurl port curl r).1 = FetchPath.rendered ↔ port ≠ "8888") ∧
      (port ≠ "8888" → fetchManualsViaCurl port curl r = (.rendered, r)) ∧
      (fetchManualsViaCurl "8888" curl r =
        (.direct, match curl with
          | .completed rc out => if rc = 0 ∧ out ≠ "" then extractManualsCurl out else []
          | .timedOut => []
          | .raised => [])) := by
  intro port curl r
  refine ⟨?_, ?_, ?_⟩
  · by_cases hp : port = "8888"
    · subst hp
      simp only [fetchManualsViaCurl]
      cases curl with
      | completed rc out =>
        by_cases hc : rc = 0 ∧ out ≠ "" <;> simp [hc]
      | timedOut => simp
      | raised => simp
    · simp [fetchManualsViaCurl, hp]
  · intro hp
    simp [fetchManualsViaCurl, hp]
  · cases curl with
    | completed rc out =>
      by_cases hc : rc = 0 ∧ out ≠ ""
      · simp [fetchManualsViaCurl, hc]
      · simp only [fetchManualsViaCurl]
        rw [if_neg (by simp), if_neg hc, if_neg hc]
    | timedOut => simp [fetchManualsViaCurl]
    | raised => simp [fetchManualsViaCurl]

/-- Witness for C7's amended theorem at `PORT = '9999'` with a timed-out
curl: the rendered path is taken and the (empty) rendered result is
returned. -/
theorem fetch_strategy_port_switch_w :
    fetchManualsViaCurl "9999" CurlRun.timedOut [] = (.rendered, []) :=
  (fetch_strategy_port_switch "9999" CurlRun.timedOut []).2.1 (by decide)

/-- **C9** (counterexample).  The claim says the API layer never turns a
zero-record fetch into an error status, but `get_models` in server.py
(lines 474-475) returns HTTP 500 with `"Failed to fetch models"` when
the freshly fetched model list is empty. -/
theorem getModels_empty_returns_500 :
    getModelsEmptyCheck [] = Except.error (500, "Failed to fetch models") := by
  rfl

/-- **C9** (amended).  `server_cached.py`'s `get_manuals` implements the
empty-result policy: every outcome of the fetch tail — records found,
zero records, or an exception — is answered with HTTP 200 and
`success: True`, the last two with an empty data list; `server.py`'s
`get_models`, by contrast, turns an empty freshly-fetched model list
(and only that) into a 500 error. -/
theorem empty_result_api_policy :
    (∀ fetched : Option (List ManualRec),
      (getManualsCachedResponse fetched).status = 200 ∧
      (getManualsCachedResponse fetched).success = true) ∧
    getManualsCachedResponse (some []) = { status := 200, success := true, data := [] } ∧
    getManualsCachedResponse none = { status := 200, success := true, data := [] } ∧
    (∀ ms : List ModelRec,
      getModelsEmptyCheck ms = Except.error (500, "Failed to fetch models") ↔ ms = []) := by
  refine ⟨?_, by decide, by decide, ?_⟩
  · intro fetched
    cases fetched with
    | none => exact ⟨rfl, rfl⟩
    | some manuals =>
      by_cases hm : manuals = []
      · subst hm; exact ⟨rfl, rfl⟩
      · simp [getManualsCachedResponse, hm]
  · intro ms
    cases ms with
    | nil => simp [getModelsEmptyCheck]
    | cons m t => simp [getModelsEmptyCheck]

/-- Witness for C9's amended theorem: a fetch that found one manual is
answered with status 200, and the empty model list does map to the 500
error. -/
theorem empty_result_api_policy_w :
    (getManualsCachedResponse (some [mkManualCurl "500_spm.pdf"])).status = 200 ∧
    (getModelsEmptyCheck [] = Except.error (500, "Failed to fetch models") ↔
      ([] : List ModelRec) = []) :=
  ⟨(empty_result_api_policy.1 (some [mkManualCurl "500_spm.pdf"])).1,
   empty_result_api_policy.2.2.2 []⟩

theorem strAppend_left_cancel {p a b : String} (h : p ++ a = p ++ b) : a = b := by
  have hd : p.data ++ a.data = p.data ++ b.data := by
    simpa [String.data_append] using congrArg String.data h
  exact String.ext (List.append_cancel_left hd)

/-- The manual identity key (`relativeLink = "/modelManual/" ++ match`)
determines the captured match. -/
theorem mkManualCurl_link_inj {a b : String}
    (h : (mkManualCurl a).link = (mkManualCurl b).link) : a = b :=
  strAppend_left_cancel h

theorem buildManualsCurl_mem : ∀ (ms seen : List String) (r : ManualRec),
    r ∈ buildManualsCurl ms seen → ∃ m, m ∉ seen ∧ r = mkManualCurl m := by
  intro ms
  induction ms with
  | nil => intro seen r hr; simp [buildManualsCurl] at hr
  | cons m rest ih =>
    intro seen r hr
    rw [buildManualsCurl] at hr
    by_cases hm : m ∈ seen
    · rw [if_pos hm] at hr
      exact ih seen r hr
    · rw [if_neg hm] at hr
      rcases List.mem_cons.mp hr with hr | hr
      · exact ⟨m, hm, hr⟩
      · obtain ⟨m', hm', hr'⟩ := ih (m :: seen) r hr
        exact ⟨m', fun hx => hm' (List.mem_cons_of_mem _ hx), hr'⟩

theorem buildManualsCurl_links_nodup : ∀ (ms seen : List String),
    ((buildManualsCurl ms seen).map (fun r => r.link)).Nodup := by
  intro ms
  induction ms with
  | nil => intro seen; simp [buildManualsCurl]
  | cons m rest ih =>
    intro seen
    rw [buildManualsCurl]
    by_cases hm : m ∈ seen
    · rw [if_pos hm]; exact ih seen
    · rw [if_neg hm]
      rw [List.map_cons, List.nodup_cons]
      refine ⟨?_, ih (m :: seen)⟩
      intro hx
      obtain ⟨r, hr, hlink⟩ := List.mem_map.mp hx
      obtain ⟨m', hm', rfl⟩ := buildManualsCurl_mem rest (m :: seen) r hr
      exact hm' (mkManualCurl_link_inj hlink ▸ List.mem_cons_self m seen)

theorem buildManualsCurl_sublist : ∀ (ms seen : List String),
    (buildManualsCurl ms seen).Sublist (ms.map mkManualCurl) := by
  intro ms
  induction ms with
  | nil => intro seen; simp [buildManualsCurl]
  | cons m rest ih =>
    intro seen
    rw [buildManualsCurl, List.map_cons]
    by_cases hm : m ∈ seen
    · rw [if_pos hm]; exact List.Sublist.cons _ (ih seen)
    · rw [if_neg hm]; exact List.Sublist.cons₂ _ (ih (m :: seen))

theorem buildManualsCurl_complete : ∀ (ms seen : List String) (m : String),
    m ∈ ms → m ∉ seen → mkManualCurl m ∈ buildManualsCurl ms seen := by
  intro ms
  induction ms with
  | nil => intro seen m hm; cases hm
  | cons m' rest ih =>
    intro seen m hm hns
    rw [buildManualsCurl]
    by_cases hm' : m' ∈ seen
    · rw [if_pos hm']
      rcases List.mem_cons.mp hm with rfl | hmr
      · exact absurd hm' hns
      · exact ih seen m hmr hns
    · rw [if_neg hm']
      rcases List.mem_cons.mp hm with rfl | hmr
      · exact List.mem_cons_self _ _
      · by_cases he : m = m'
        · subst he; exact List.mem_cons_self _ _
        · exact List.mem_cons_of_mem _
            (ih (m' :: seen) m hmr (fun hx => (List.mem_cons.mp hx).elim he hns))

/-- The inner match loop of `fetch_models_via_curl` keeps the recorded
codes distinct: every accepted code goes into `seen_codes` and codes
already in `seen_codes` are skipped. -/
theorem addModelMatches_inv (uri : String) (maxM : Nat) :
    ∀ (pat : List (String × String)) (seen : List String) (models : List ModelRec),
    (models.map (fun r => r.code)).Nodup → (∀ r ∈ models, r.code ∈ seen) →
    ((addModelMatches uri maxM pat seen models).2.map (fun r => r.code)).Nodup ∧
    (∀ r ∈ (addModelMatches uri maxM pat seen models).2,
      r.code ∈ (addModelMatches uri maxM pat seen models).1) := by
  intro pat
  induction pat with
  | nil =>
    intro seen models h1 h2
    rw [addModelMatches]
    exact ⟨h1, h2⟩
  | cons p rest ih =>
    intro seen models h1 h2
    rw [addModelMatches]
    dsimp only
    by_cases hskip : skipModelMatch seen p.1.trim p.2.trim = true
    · rw [if_pos hskip]
      exact ih seen models h1 h2
    · rw [if_neg hskip]
      have hcode : p.1.trim ∉ seen := by
        simp only [skipModelMatch, Bool.or_eq_true, decide_eq_true_eq] at hskip
        exact fun hx => hskip (Or.inl (Or.inl hx))
      have hnodup' : ((models ++ [mkModelRec uri p.1.trim p.2.trim]).map
          (fun r => r.code)).Nodup := by
        rw [List.map_append, List.nodup_append]
        refine ⟨h1, by simp [mkModelRec], ?_⟩
        intro c hc hc'
        simp only [List.map_cons, List.map_nil, List.mem_singleton, mkModelRec] at hc'
        obtain ⟨r, hr, rfl⟩ := List.mem_map.mp hc
        exact hcode (hc' ▸ h2 r hr)
      have hmem' : ∀ r ∈ models ++ [mkModelRec uri p.1.trim p.2.trim],
          r.code ∈ p.1.trim :: seen := by
        intro r hr
        rcases List.mem_append.mp hr with hr | hr
        · exact List.mem_cons_of_mem _ (h2 r hr)
        · rw [List.mem_singleton.mp hr]
          exact List.mem_cons_self _ _
      by_cases hcap : maxM ≤ (models ++ [mkModelRec uri p.1.trim p.2.trim]).length
      · rw [if_pos hcap]
        exact ⟨hnodup', hmem'⟩
      · rw [if_neg hcap]
        exact ih (p.1.trim :: seen) (models ++ [mkModelRec uri p.1.trim p.2.trim])
          hnodup' hmem'

/-- The inner loop only ever appends records built from its own matches,
in order. -/
theorem addModelMatches_shape (uri : String) (maxM : Nat) :
    ∀ (pat : List (String × String)) (seen : List String) (models : List ModelRec),
    ∃ tail, (addModelMatches uri maxM pat seen models).2 = models ++ tail ∧
      tail.Sublist (pat.map (fun p => mkModelRec uri p.1.trim p.2.trim)) ∧
      (∀ x ∈ seen, x ∈ (addModelMatches uri maxM pat seen models).1) := by
  intro pat
  induction pat with
  | nil =>
    intro seen models
    rw [addModelMatches]
    exact ⟨[], by simp, by simp, fun x hx => hx⟩
  | cons p rest ih =>
    intro seen models
    rw [addModelMatches]
    dsimp only
    by_cases hskip : skipModelMatch seen p.1.trim p.2.trim = true
    · rw [if_pos hskip]
      obtain ⟨tail, ht1, ht2, ht3⟩ := ih seen models
      exact ⟨tail, ht1, List.Sublist.cons _ ht2, ht3⟩
    · rw [if_neg hskip]
      by_cases hcap : maxM ≤ (models ++ [mkModelRec uri p.1.trim p.2.trim]).length
      · rw [if_pos hcap]
        refine ⟨[mkModelRec uri p.1.trim p.2.trim], rfl, ?_, ?_⟩
        · exact List.Sublist.cons₂ _ (List.nil_sublist _)
        · exact fun x hx => List.mem_cons_of_mem _ hx
      · rw [if_neg hcap]
        obtain ⟨tail, ht1, ht2, ht3⟩ :=
          ih (p.1.trim :: seen) (models ++ [mkModelRec uri p.1.trim p.2.trim])
        refine ⟨mkModelRec uri p.1.trim p.2.trim :: tail, ?_, ?_, ?_⟩
        · rw [ht1, List.append_assoc]; rfl
        · exact List.Sublist.cons₂ _ ht2
        · exact fun x hx => ht3 x (List.mem_cons_of_mem _ hx)

/-- The outer pattern loop keeps codes distinct. -/
theorem buildModelsCurl_nodup (uri : String) (maxM : Nat) :
    ∀ (pats : List (List (String × String))) (seen : List String) (models : List ModelRec),
    (models.map (fun r => r.code)).Nodup → (∀ r ∈ models, r.code ∈ seen) →
    ((buildModelsCurl uri maxM pats seen models).map (fun r => r.code)).Nodup := by
  intro pats
  induction pats with
  | nil =>
    intro seen models h1 _
    rw [buildModelsCurl]
    exact h1
  | cons pat pats ih =>
    intro seen models h1 h2
    rw [buildModelsCurl]
    obtain ⟨hn, hm⟩ := addModelMatches_inv uri maxM pat seen models h1 h2
    by_cases hcap : maxM ≤ (addModelMatches uri maxM pat seen models).2.length
    · rw [if_pos hcap]; exact hn
    · rw [if_neg hcap]
      exact ih (addModelMatches uri maxM pat seen models).1
        (addModelMatches uri maxM pat seen models).2 hn hm

/-- The outer pattern loop appends records in pattern order. -/
theorem buildModelsCurl_shape (uri : String) (maxM : Nat) :
    ∀ (pats : List (List (String × String))) (seen : List String) (models : List ModelRec),
    ∃ tail, buildModelsCurl uri maxM pats seen models = models ++ tail ∧
      tail.Sublist (pats.flatten.map (fun p => mkModelRec uri p.1.trim p.2.trim)) := by
  intro pats
  induction pats with
  | nil =>
    intro seen models
    rw [buildModelsCurl]
    exact ⟨[], by simp, by simp⟩
  | cons pat pats ih =>
    intro seen models
    rw [buildModelsCurl]
    obtain ⟨t1, h11, h12, _⟩ := addModelMatches_shape uri maxM pat seen models
    rw [List.flatten_cons, List.map_append]
    by_cases hcap : maxM ≤ (addModelMatches uri maxM pat seen models).2.length
    · rw [if_pos hcap]
      exact ⟨t1, h11, h12.trans (List.sublist_append_left _ _)⟩
    · rw [if_neg hcap]
      obtain ⟨t2, h21, h22⟩ := ih (addModelMatches uri maxM pat seen models).1
        (addModelMatches uri maxM pat seen models).2
      refine ⟨t1 ++ t2, ?_, List.Sublist.append h12 h22⟩
      rw [h21, h11, List.append_assoc]

/-- **C8** (confirmed).  The extraction loops are pure functions of
their input (their `seen`/accumulator variables are re-initialised on
every call, so two applications to the same content give the same
records and nothing accumulates), and they deduplicate by the record's
identity key in first-seen order: for `fetch_manuals_via_curl`, the
extracted records carry pairwise-distinct `relativeLink` keys, form a
sublist of the match sequence in document order, and contain a record
for every match (so the kept occurrence is the first); a document whose
manual link appears twice yields exactly one record.  For
`fetch_models_via_curl`, the extracted records carry pairwise-distinct
`code` keys and appear in match order across the patterns. -/
theorem extract_dedup_first_seen :
    (∀ s : String, ((extractManualsCurl s).map (fun r => r.link)).Nodup) ∧
    (∀ s : String, (extractManualsCurl s).Sublist
      ((findManualMatches s.data).map mkManualCurl)) ∧
    (∀ (s m : String), m ∈ findManualMatches s.data →
      mkManualCurl m ∈ extractManualsCurl s) ∧
    (extractManualsCurl
        "<a href=\"/modelManual/500_sm.pdf\">x</a> <a href=\"/modelManual/500_sm.pdf\">y</a>" =
      [{ type := "sm", title := "Service Manual", link := "/modelManual/500_sm.pdf",
         text := "Service Manual" }]) ∧
    (∀ (uri : String) (maxM : Nat) (pats : List (List (String × String))),
      ((extractModelsCurl uri maxM pats).map (fun r => r.code)).Nodup) ∧
    (∀ (uri : String) (maxM : Nat) (pats : List (List (String × String))),
      (extractModelsCurl uri maxM pats).Sublist
        (pats.flatten.map (fun p => mkModelRec uri p.1.trim p.2.trim))) := by
  refine ⟨?_, ?_, ?_, by decide, ?_, ?_⟩
  · intro s
    exact buildManualsCurl_links_nodup (findManualMatches s.data) []
  · intro s
    exact buildManualsCurl_sublist (findManualMatches s.data) []
  · intro s m hm
    exact buildManualsCurl_complete (findManualMatches s.data) [] m hm (by simp)
  · intro uri maxM pats
    exact buildModelsCurl_nodup uri maxM pats [] [] (by simp) (by simp)
  · intro uri maxM pats
    obtain ⟨tail, h1, h2⟩ := buildModelsCurl_shape uri maxM pats [] []
    rw [extractModelsCurl, h1]
    simpa using h2

/-- Witness for C8: the single match of a one-link document produces a
record in the extraction's output. -/
theorem extract_dedup_first_seen_w :
    mkManualCurl "500_sm.pdf" ∈ extractManualsCurl "<a href=\"/modelManual/500_sm.pdf\">x</a>" :=
  extract_dedup_first_seen.2.2.1 "<a href=\"/modelManual/500_sm.pdf\">x</a>" "500_sm.pdf"
    (by decide)

end SMP




